import Mathlib

/-!
Shallow embedding of the drawing relay server
(`src/drawing-server/server.js`) — a WebSocket broadcast relay that keeps a
`rooms` registry (JS `Map` from room id to a `Set` of connections), a
per-connection mutable pair `currentRoom` / `clientId`, and a message router
dispatching on the `type` field of each inbound JSON payload.

Modelling conventions:
* Connections are identified by `ConnId := Nat`; identity comparison
  (`client !== ws`) becomes equality of identifiers.
* JS values that the server inspects (room ids, the `type` discriminant,
  field values it copies around) are modelled by `JSVal`, with `undef`
  standing for JavaScript `undefined` (an absent object field) and `jnull`
  for JSON `null`.  JS truthiness (`if (currentRoom && ...)`) is `JSVal.truthy`.
* A parsed JSON object is an association list `JSObj`; property access
  `data.f` is `getField`, returning `undef` when the field is absent.
  `JSON.stringify` of an object literal drops `undefined`-valued properties,
  which `stringifyFields` models; a `Send` carries the destination and the
  field list of the serialized payload.
* The `rooms` JS `Map` is an insertion-ordered association list with the
  operations `regGet` / `regHas` / `regSet` / `regDelete`; a JS `Set` of
  members is an insertion-ordered duplicate-free list with `setAdd` /
  `setDelete`.
* `ws.send` on an OPEN socket in the `ws` library never throws
  synchronously: a write failure surfaces asynchronously on the failing
  recipient's own socket (and the server passes no send callback), so the
  `clients.forEach` loop always runs to completion and the sender's handler
  sees nothing.  Sends are therefore modelled as a list of attempts;
  per-recipient wire success is an independent outcome applied afterwards
  (`deliveredSends`).
* The raw inbound payload is `Raw`: `Raw.malformed` stands for any payload
  whose `JSON.parse` (or the property access on a non-object result) throws,
  landing in the router's `catch` which only logs; `Raw.parsed` carries the
  parsed object.
* The server process is the state machine `step` over `ServerState`
  (registry plus the handler state of each live connection), with events
  `connect` / `message` / `close`; `ready` is read at send time, so each
  `message` event carries the readyState predicate in force during that
  invocation.
-/

/-- JavaScript values the relay server inspects or copies. -/
inductive JSVal where
  | undef
  | jnull
  | bool (b : Bool)
  | num (n : Int)
  | str (s : String)
deriving DecidableEq, Repr

/-- JS truthiness, as used by `if (currentRoom && rooms.has(currentRoom))`. -/
def JSVal.truthy : JSVal → Bool
  | .undef => false
  | .jnull => false
  | .bool b => b
  | .num n => decide (n ≠ 0)
  | .str s => decide (s ≠ "")

/-- A parsed JSON object: an association list of property names to values. -/
abbrev JSObj := List (String × JSVal)

/-- Property access `data.f`: the value of the first binding of `f`, or
`undefined` when absent. -/
def getField : JSObj → String → JSVal
  | [], _ => .undef
  | (k, v) :: rest, key => if k = key then v else getField rest key

/-- The effect of `JSON.stringify` on an object literal: properties whose
value is `undefined` are omitted. -/
def stringifyFields (l : List (String × JSVal)) : List (String × JSVal) :=
  l.filter (fun p => p.2 ≠ JSVal.undef)

/-- A connection identifier (JS object identity of the socket). -/
abbrev ConnId := Nat

/-- One `send` call: destination socket and the serialized payload's fields. -/
structure Send where
  dest : ConnId
  payload : List (String × JSVal)
deriving DecidableEq, Repr

/-- The per-connection mutable state of the handler closure:
`let currentRoom = null; let clientId = null;`. -/
structure ConnState where
  currentRoom : JSVal
  clientId : JSVal
deriving DecidableEq, Repr

/-- The room registry: `const rooms = new Map()`, an insertion-ordered map
from room key to the member list of the room's `Set`. -/
abbrev Registry := List (JSVal × List ConnId)

/-- `rooms.get(k)`. -/
def regGet : Registry → JSVal → Option (List ConnId)
  | [], _ => none
  | (k, ms) :: rest, key => if k = key then some ms else regGet rest key

/-- `rooms.has(k)`. -/
def regHas (r : Registry) (k : JSVal) : Bool :=
  (regGet r k).isSome

/-- `rooms.set(k, v)`: replace the binding of `k`, or append a new one. -/
def regSet : Registry → JSVal → List ConnId → Registry
  | [], key, v => [(key, v)]
  | (k, ms) :: rest, key, v =>
      if k = key then (key, v) :: rest else (k, ms) :: regSet rest key v

/-- `rooms.delete(k)` (a JS `Map` holds at most one binding per key). -/
def regDelete (r : Registry) (key : JSVal) : Registry :=
  r.filter (fun p => p.1 ≠ key)

/-- `set.add(c)` on a JS `Set`: append unless already present. -/
def setAdd (s : List ConnId) (c : ConnId) : List ConnId :=
  if c ∈ s then s else s ++ [c]

/-- `set.delete(c)` on a JS `Set`. -/
def setDelete (s : List ConnId) (c : ConnId) : List ConnId :=
  s.filter (fun x => x ≠ c)

/-- The shared room-cleanup path of `case 'leave'` and the close handler:
`rooms.get(key).delete(ws); if (rooms.get(key).size === 0) rooms.delete(key)`.
Callers have already checked `rooms.has(key)`. -/
def leaveRoom (rooms : Registry) (key : JSVal) (ws : ConnId) : Registry :=
  let s := setDelete ((regGet rooms key).getD []) ws
  let rooms1 := regSet rooms key s
  if s = [] then regDelete rooms1 key else rooms1

/-- The `clients.forEach` fan-out: send the serialized payload to every
member other than the sender whose `readyState` is `OPEN`. -/
def broadcastToRoom (clients : List ConnId) (ws : ConnId)
    (ready : ConnId → Bool) (payload : List (String × JSVal)) : List Send :=
  (clients.filter (fun c => c ≠ ws && ready c)).map
    (fun c => ⟨c, stringifyFields payload⟩)

/-- Result of routing one message: the registry, the connection's handler
state, and the sends performed, in order. -/
structure StepResult where
  rooms : Registry
  conn : ConnState
  sends : List Send
deriving Repr

/-- One relay case of the switch (`draw`, `strokeEnd`, `fill`, `clear`,
`undo`): guard `if (currentRoom && rooms.has(currentRoom))`, rebuild the
payload object from the listed fields of the inbound data, and fan out. -/
def relayCase (rooms : Registry) (ws : ConnId) (st : ConnState)
    (ready : ConnId → Bool) (data : JSObj) (ty : String)
    (names : List String) : StepResult :=
  if st.currentRoom.truthy && regHas rooms st.currentRoom then
    let clients := (regGet rooms st.currentRoom).getD []
    let payload := ("type", JSVal.str ty) :: names.map (fun f => (f, getField data f))
    ⟨rooms, st, broadcastToRoom clients ws ready payload⟩
  else
    ⟨rooms, st, []⟩

/-- The router's `switch (data.type)`, translated case by case. -/
def handleMessage (rooms : Registry) (ws : ConnId) (st : ConnState)
    (ready : ConnId → Bool) (data : JSObj) : StepResult :=
  match getField data "type" with
  | .str "join" =>
      let currentRoom := getField data "roomId"
      let clientId := getField data "clientId"
      let rooms1 :=
        if regHas rooms currentRoom then rooms else regSet rooms currentRoom []
      let rooms2 :=
        regSet rooms1 currentRoom (setAdd ((regGet rooms1 currentRoom).getD []) ws)
      ⟨rooms2, ⟨currentRoom, clientId⟩,
        [⟨ws, stringifyFields [("type", JSVal.str "joined"), ("roomId", currentRoom)]⟩]⟩
  | .str "draw" =>
      relayCase rooms ws st ready data "draw"
        ["x", "y", "prevX", "prevY", "color", "lineWidth", "drawerId"]
  | .str "strokeEnd" =>
      relayCase rooms ws st ready data "strokeEnd" ["drawerId"]
  | .str "fill" =>
      relayCase rooms ws st ready data "fill" ["x", "y", "color", "drawerId"]
  | .str "clear" =>
      relayCase rooms ws st ready data "clear" ["drawerId"]
  | .str "undo" =>
      relayCase rooms ws st ready data "undo" ["drawerId"]
  | .str "leave" =>
      if st.currentRoom.truthy && regHas rooms st.currentRoom then
        ⟨leaveRoom rooms st.currentRoom ws, st, []⟩
      else
        ⟨rooms, st, []⟩
  | _ => ⟨rooms, st, []⟩

/-- A raw inbound frame: either a payload whose parse (or `data.type` access
on a non-object) throws — swallowed by the router's `catch`, which only
logs — or a parsed object. -/
inductive Raw where
  | malformed
  | parsed (data : JSObj)

/-- The `ws.on('message')` handler body: try-parse, then route. -/
def processRaw (rooms : Registry) (ws : ConnId) (st : ConnState)
    (ready : ConnId → Bool) : Raw → StepResult
  | .malformed => ⟨rooms, st, []⟩
  | .parsed data => handleMessage rooms ws st ready data

/-- The `ws.on('close')` handler: implicit leave from the current room. -/
def handleCloseConn (rooms : Registry) (ws : ConnId) (st : ConnState) : Registry :=
  if st.currentRoom.truthy && regHas rooms st.currentRoom then
    leaveRoom rooms st.currentRoom ws
  else
    rooms

/-- Whole-server state: the registry plus the handler state of each live
connection. -/
structure ServerState where
  rooms : Registry
  conns : List (ConnId × ConnState)

/-- Look up a live connection's handler state. -/
def connLookup : List (ConnId × ConnState) → ConnId → Option ConnState
  | [], _ => none
  | (k, st) :: rest, c => if k = c then some st else connLookup rest c

/-- Replace a live connection's handler state. -/
def connUpdate : List (ConnId × ConnState) → ConnId → ConnState →
    List (ConnId × ConnState)
  | [], _, _ => []
  | (k, st) :: rest, c, v =>
      if k = c then (k, v) :: rest else (k, st) :: connUpdate rest c v

/-- Drop a connection (its closure is gone after `close`). -/
def connRemove (l : List (ConnId × ConnState)) (c : ConnId) :
    List (ConnId × ConnState) :=
  l.filter (fun p => p.1 ≠ c)

/-- External events driving the server: a transport accept, an inbound
frame (carrying the readyState predicate in force during that invocation),
and a transport close. -/
inductive Event where
  | connect (c : ConnId)
  | message (c : ConnId) (ready : ConnId → Bool) (raw : Raw)
  | close (c : ConnId)

/-- Initial server state: empty registry, no connections. -/
def initialState : ServerState := ⟨[], []⟩

/-- One step of the server: dispatch an event, returning the new state and
the sends it performed.  Messages from a connection that is not live (its
close already processed) have no handler and no effect. -/
def step (s : ServerState) : Event → ServerState × List Send
  | .connect c =>
      if (connLookup s.conns c).isSome then (s, [])
      else (⟨s.rooms, s.conns ++ [(c, ⟨.jnull, .jnull⟩)]⟩, [])
  | .message c ready raw =>
      match connLookup s.conns c with
      | none => (s, [])
      | some st =>
          let r := processRaw s.rooms c st ready raw
          (⟨r.rooms, connUpdate s.conns c r.conn⟩, r.sends)
  | .close c =>
      match connLookup s.conns c with
      | none => (s, [])
      | some st => (⟨handleCloseConn s.rooms c st, connRemove s.conns c⟩, [])

/-- Run the server from a given state through a list of events. -/
def runFrom (s : ServerState) (evs : List Event) : ServerState :=
  evs.foldl (fun s e => (step s e).1) s

/-- Run the server from the initial state. -/
def run (evs : List Event) : ServerState :=
  runFrom initialState evs

/-- The relay-type messages and the payload fields the router copies for
each (the `drawData` / `endData` / `fillData` / `clearData` / `undoData`
object literals). -/
def relayTable : List (String × List String) :=
  [("draw", ["x", "y", "prevX", "prevY", "color", "lineWidth", "drawerId"]),
   ("strokeEnd", ["drawerId"]),
   ("fill", ["x", "y", "color", "drawerId"]),
   ("clear", ["drawerId"]),
   ("undo", ["drawerId"])]

/-- The serialized payload a relay message of type `ty` produces. -/
def relayPayload (ty : String) (names : List String) (data : JSObj) :
    List (String × JSVal) :=
  stringifyFields (("type", JSVal.str ty) :: names.map (fun f => (f, getField data f)))

/-- Wire outcome of the attempts of one fan-out: `ok c = false` models an
asynchronous write failure towards `c`; it filters delivery but, the loop
having already completed, cannot influence the attempt list. -/
def deliveredSends (sends : List Send) (ok : ConnId → Bool) : List Send :=
  sends.filter (fun s => ok s.dest)

/-! Basic lemmas about the registry, member sets, and connection table. -/

lemma regGet_regSet_self (r : Registry) (k : JSVal) (v : List ConnId) :
    regGet (regSet r k v) k = some v := by
  induction r with
  | nil => simp [regSet, regGet]
  | cons p rest ih =>
      obtain ⟨k', ms⟩ := p
      by_cases h : k' = k <;> simp [regSet, regGet, h, ih]

lemma regSet_regSet_self (r : Registry) (k : JSVal) (v w : List ConnId) :
    regSet (regSet r k v) k w = regSet r k w := by
  induction r with
  | nil => simp [regSet]
  | cons p rest ih =>
      obtain ⟨k', ms⟩ := p
      by_cases h : k' = k <;> simp [regSet, h, ih]

lemma mem_regSet {p : JSVal × List ConnId} {r : Registry} {k : JSVal}
    {v : List ConnId} (h : p ∈ regSet r k v) : p = (k, v) ∨ p ∈ r := by
  induction r with
  | nil => simpa [regSet] using h
  | cons q rest ih =>
      obtain ⟨k', ms⟩ := q
      by_cases hk : k' = k
      · simp [regSet, hk] at h
        rcases h with h | h
        · exact Or.inl (by simp [h])
        · exact Or.inr (List.mem_cons_of_mem _ h)
      · simp [regSet, hk] at h
        rcases h with h | h
        · exact Or.inr (by simp [h])
        · rcases ih h with h' | h'
          · exact Or.inl h'
          · exact Or.inr (List.mem_cons_of_mem _ h')

lemma regGet_mem {r : Registry} {k : JSVal} {v : List ConnId}
    (h : regGet r k = some v) : (k, v) ∈ r := by
  induction r with
  | nil => simp [regGet] at h
  | cons p rest ih =>
      obtain ⟨k', ms⟩ := p
      by_cases hk : k' = k
      · simp [regGet, hk] at h
        simp [hk, h]
      · simp [regGet, hk] at h
        exact List.mem_cons_of_mem _ (ih h)

lemma mem_regDelete {p : JSVal × List ConnId} {r : Registry} {k : JSVal}
    (h : p ∈ regDelete r k) : p ∈ r ∧ p.1 ≠ k := by
  unfold regDelete at h
  have := List.mem_filter.1 h
  exact ⟨this.1, by simpa using this.2⟩

lemma regGet_regDelete_self (r : Registry) (k : JSVal) :
    regGet (regDelete r k) k = none := by
  induction r with
  | nil => simp [regDelete, regGet]
  | cons p rest ih =>
      obtain ⟨k', ms⟩ := p
      by_cases hk : k' = k
      · simpa [regDelete, hk] using ih
      · simpa [regDelete, regGet, hk] using ih

lemma regHas_false_iff {r : Registry} {k : JSVal} :
    regHas r k = false ↔ regGet r k = none := by
  unfold regHas
  cases h : regGet r k <;> simp

lemma setAdd_ne_nil (s : List ConnId) (c : ConnId) : setAdd s c ≠ [] := by
  unfold setAdd
  split
  · intro h
    subst h
    simp_all
  · simp

lemma mem_setAdd {x c : ConnId} {s : List ConnId} (h : x ∈ setAdd s c) :
    x = c ∨ x ∈ s := by
  unfold setAdd at h
  split at h
  · exact Or.inr h
  · rcases List.mem_append.1 h with h' | h'
    · exact Or.inr h'
    · exact Or.inl (by simpa using h')

lemma mem_setDelete {x c : ConnId} {s : List ConnId} :
    x ∈ setDelete s c ↔ x ∈ s ∧ x ≠ c := by
  unfold setDelete
  constructor
  · intro h
    have := List.mem_filter.1 h
    exact ⟨this.1, by simpa using this.2⟩
  · intro ⟨h1, h2⟩
    exact List.mem_filter.2 ⟨h1, by simpa using h2⟩

lemma self_not_mem_setDelete (s : List ConnId) (c : ConnId) :
    c ∉ setDelete s c := by
  intro h
  exact (mem_setDelete.1 h).2 rfl

lemma connLookup_connUpdate_self {l : List (ConnId × ConnState)} {c : ConnId}
    {st : ConnState} (h : connLookup l c = some st) (x : ConnId) :
    connLookup (connUpdate l c st) x = connLookup l x := by
  induction l with
  | nil => simp [connLookup] at h
  | cons p rest ih =>
      obtain ⟨k, v⟩ := p
      by_cases hk : k = c
      · simp [connLookup, hk] at h
        simp [connUpdate, hk, h]
      · simp [connLookup, hk] at h
        simp [connUpdate, hk, connLookup, ih h]

/-! Normal forms of the router's cases. -/

lemma handleMessage_join (rooms : Registry) (ws : ConnId) (st : ConnState)
    (ready : ConnId → Bool) (data : JSObj)
    (h : getField data "type" = JSVal.str "join") :
    handleMessage rooms ws st ready data =
      ⟨regSet rooms (getField data "roomId")
          (setAdd ((regGet rooms (getField data "roomId")).getD []) ws),
       ⟨getField data "roomId", getField data "clientId"⟩,
       [⟨ws, stringifyFields
          [("type", JSVal.str "joined"), ("roomId", getField data "roomId")]⟩]⟩ := by
  unfold handleMessage
  rw [h]
  by_cases hh : regHas rooms (getField data "roomId")
  · simp [hh]
  · have hn : regGet rooms (getField data "roomId") = none := regHas_false_iff.1 (by simpa using hh)
    simp [hh, hn, regGet_regSet_self, regSet_regSet_self]

lemma handleMessage_relay (rooms : Registry) (ws : ConnId) (st : ConnState)
    (ready : ConnId → Bool) (data : JSObj) (ty : String) (names : List String)
    (hty : getField data "type" = JSVal.str ty)
    (htab : (ty, names) ∈ relayTable) :
    handleMessage rooms ws st ready data =
      relayCase rooms ws st ready data ty names := by
  simp only [relayTable, List.mem_cons, List.not_mem_nil, or_false,
    Prod.mk.injEq] at htab
  rcases htab with ⟨h1, h2⟩ | ⟨h1, h2⟩ | ⟨h1, h2⟩ | ⟨h1, h2⟩ | ⟨h1, h2⟩ <;>
    (subst h1; subst h2; unfold handleMessage; rw [hty]; rfl)

lemma relayCase_rooms_conn (rooms : Registry) (ws : ConnId) (st : ConnState)
    (ready : ConnId → Bool) (data : JSObj) (ty : String) (names : List String) :
    (relayCase rooms ws st ready data ty names).rooms = rooms
    ∧ (relayCase rooms ws st ready data ty names).conn = st := by
  unfold relayCase
  split <;> exact ⟨rfl, rfl⟩

lemma relayCase_active (rooms : Registry) (ws : ConnId) (st : ConnState)
    (ready : ConnId → Bool) (data : JSObj) (ty : String) (names : List String)
    (ms : List ConnId) (htr : st.currentRoom.truthy = true)
    (hms : regGet rooms st.currentRoom = some ms) :
    relayCase rooms ws st ready data ty names =
      ⟨rooms, st,
       (ms.filter (fun c => c ≠ ws && ready c)).map
         (fun c => Send.mk c (relayPayload ty names data))⟩ := by
  unfold relayCase
  have hhas : regHas rooms st.currentRoom = true := by simp [regHas, hms]
  simp [htr, hhas, hms, broadcastToRoom, relayPayload]

lemma relayCase_inactive (rooms : Registry) (ws : ConnId) (st : ConnState)
    (ready : ConnId → Bool) (data : JSObj) (ty : String) (names : List String)
    (h : st.currentRoom.truthy = false ∨ regHas rooms st.currentRoom = false) :
    relayCase rooms ws st ready data ty names = ⟨rooms, st, []⟩ := by
  unfold relayCase
  rcases h with h | h <;> simp [h]

lemma handleMessage_leave_active (rooms : Registry) (ws : ConnId)
    (st : ConnState) (ready : ConnId → Bool) (data : JSObj)
    (hty : getField data "type" = JSVal.str "leave")
    (htr : st.currentRoom.truthy = true)
    (hhas : regHas rooms st.currentRoom = true) :
    handleMessage rooms ws st ready data =
      ⟨leaveRoom rooms st.currentRoom ws, st, []⟩ := by
  unfold handleMessage
  rw [hty]
  simp [htr, hhas]

lemma handleMessage_rooms_nonjoin (rooms : Registry) (ws : ConnId)
    (st : ConnState) (ready : ConnId → Bool) (data : JSObj)
    (h : getField data "type" ≠ JSVal.str "join") :
    (handleMessage rooms ws st ready data).rooms = rooms
    ∨ (handleMessage rooms ws st ready data).rooms
        = leaveRoom rooms st.currentRoom ws := by
  unfold handleMessage
  split
  · exact absurd (by assumption) h
  · exact Or.inl (relayCase_rooms_conn ..).1
  · exact Or.inl (relayCase_rooms_conn ..).1
  · exact Or.inl (relayCase_rooms_conn ..).1
  · exact Or.inl (relayCase_rooms_conn ..).1
  · exact Or.inl (relayCase_rooms_conn ..).1
  · split
    · exact Or.inr rfl
    · exact Or.inl rfl
  · exact Or.inl rfl

lemma mem_leaveRoom {p : JSVal × List ConnId} (r : Registry) (k : JSVal)
    (ws : ConnId) (hp : p ∈ leaveRoom r k ws) :
    (p = (k, setDelete ((regGet r k).getD []) ws)
      ∧ setDelete ((regGet r k).getD []) ws ≠ []) ∨ p ∈ r := by
  simp only [leaveRoom] at hp
  split at hp
  · rcases mem_regSet (mem_regDelete hp).1 with h | h
    · exact absurd (by simp [h]) (mem_regDelete hp).2
    · exact Or.inr h
  · rcases mem_regSet hp with h | h
    · exact Or.inl ⟨h, by assumption⟩
    · exact Or.inr h

/-! Invariant: every registered room has a non-empty member set. -/

/-- Claim C2's invariant on the registry. -/
def RoomsNonempty (r : Registry) : Prop :=
  ∀ p ∈ r, p.2 ≠ ([] : List ConnId)

lemma roomsNonempty_regSet_setAdd {r : Registry} (h : RoomsNonempty r)
    (k : JSVal) (ms : List ConnId) (c : ConnId) :
    RoomsNonempty (regSet r k (setAdd ms c)) := by
  intro p hp
  rcases mem_regSet hp with h' | h'
  · rw [h']
    exact setAdd_ne_nil ms c
  · exact h p h'

lemma roomsNonempty_leaveRoom {r : Registry} (h : RoomsNonempty r)
    (k : JSVal) (ws : ConnId) : RoomsNonempty (leaveRoom r k ws) := by
  intro p hp
  rcases mem_leaveRoom r k ws hp with ⟨hpe, hne⟩ | h'
  · rw [hpe]
    exact hne
  · exact h p h'

lemma roomsNonempty_step {s : ServerState} (h : RoomsNonempty s.rooms)
    (e : Event) : RoomsNonempty (step s e).1.rooms := by
  cases e with
  | connect c =>
      by_cases hc : (connLookup s.conns c).isSome <;> simp [step, hc] <;> exact h
  | message c ready raw =>
      cases hc : connLookup s.conns c with
      | none => simpa [step, hc] using h
      | some st =>
          cases raw with
          | malformed => simpa [step, hc, processRaw] using h
          | parsed data =>
              have hrooms :
                  (step s (Event.message c ready (Raw.parsed data))).1.rooms
                    = (handleMessage s.rooms c st ready data).rooms := by
                simp [step, hc, processRaw]
              rw [hrooms]
              by_cases hj : getField data "type" = JSVal.str "join"
              · rw [handleMessage_join s.rooms c st ready data hj]
                exact roomsNonempty_regSet_setAdd h _ _ c
              · rcases handleMessage_rooms_nonjoin s.rooms c st ready data hj
                  with h' | h' <;> rw [h']
                · exact h
                · exact roomsNonempty_leaveRoom h _ c
  | close c =>
      cases hc : connLookup s.conns c with
      | none => simpa [step, hc] using h
      | some st =>
          have hrooms :
              (step s (Event.close c)).1.rooms = handleCloseConn s.rooms c st := by
            simp [step, hc]
          rw [hrooms]
          unfold handleCloseConn
          split
          · exact roomsNonempty_leaveRoom h _ c
          · exact h

lemma roomsNonempty_runFrom (evs : List Event) :
    ∀ s : ServerState, RoomsNonempty s.rooms →
      RoomsNonempty (runFrom s evs).rooms := by
  induction evs with
  | nil => intro s h; exact h
  | cons e es ih => intro s h; exact ih _ (roomsNonempty_step h e)

/-! Discipline and invariant for claim C4: a connection that only joins
while it is a member of no room is never in two member sets at once. -/

/-- At most one registry entry's member set contains any given connection. -/
def AtMostOne (r : Registry) : Prop :=
  ∀ p q : JSVal × List ConnId, ∀ c : ConnId,
    p ∈ r → q ∈ r → c ∈ p.2 → c ∈ q.2 → p.1 = q.1

/-- An event respects the join discipline in state `s`: a `join` message is
only sent by a connection that is currently in no room's member set. -/
def okEvent (s : ServerState) : Event → Bool
  | .message c _ (.parsed d) =>
      if getField d "type" = JSVal.str "join" then
        s.rooms.all (fun p => decide (c ∉ p.2))
      else
        true
  | _ => true

/-- A whole event trace from `s` respects the join discipline. -/
def disciplined : ServerState → List Event → Bool
  | _, [] => true
  | s, e :: es => okEvent s e && disciplined (step s e).1 es

lemma atMostOne_leaveRoom {r : Registry} (h : AtMostOne r) (k : JSVal)
    (ws : ConnId) : AtMostOne (leaveRoom r k ws) := by
  intro p q c hp hq hcp hcq
  rcases mem_leaveRoom r k ws hp with ⟨hpe, _⟩ | hp' <;>
    rcases mem_leaveRoom r k ws hq with ⟨hqe, _⟩ | hq'
  · rw [hpe, hqe]
  · rw [hpe] at hcp ⊢
    have hcms : c ∈ (regGet r k).getD [] := (mem_setDelete.1 hcp).1
    cases hreg : regGet r k with
    | none => rw [hreg] at hcms; simp at hcms
    | some ms0 =>
        rw [hreg] at hcms
        exact h (k, ms0) q c (regGet_mem hreg) hq' hcms hcq
  · rw [hqe] at hcq ⊢
    have hcms : c ∈ (regGet r k).getD [] := (mem_setDelete.1 hcq).1
    cases hreg : regGet r k with
    | none => rw [hreg] at hcms; simp at hcms
    | some ms0 =>
        rw [hreg] at hcms
        exact (h (k, ms0) p c (regGet_mem hreg) hp' hcms hcp).symm
  · exact h p q c hp' hq' hcp hcq

lemma atMostOne_regSet_setAdd {r : Registry} (h : AtMostOne r)
    (hfree : ∀ p ∈ r, c0 ∉ p.2) (k : JSVal) :
    AtMostOne (regSet r k (setAdd ((regGet r k).getD []) c0)) := by
  intro p q c hp hq hcp hcq
  rcases mem_regSet hp with hpe | hp' <;> rcases mem_regSet hq with hqe | hq'
  · rw [hpe, hqe]
  · rw [hpe] at hcp ⊢
    rcases mem_setAdd hcp with hc0 | hcms
    · exact absurd (hc0 ▸ hcq) (hfree q hq')
    · cases hreg : regGet r k with
      | none => rw [hreg] at hcms; simp at hcms
      | some ms0 =>
          rw [hreg] at hcms
          exact h (k, ms0) q c (regGet_mem hreg) hq' hcms hcq
  · rw [hqe] at hcq ⊢
    rcases mem_setAdd hcq with hc0 | hcms
    · exact absurd (hc0 ▸ hcp) (hfree p hp')
    · cases hreg : regGet r k with
      | none => rw [hreg] at hcms; simp at hcms
      | some ms0 =>
          rw [hreg] at hcms
          exact (h (k, ms0) p c (regGet_mem hreg) hp' hcms hcp).symm
  · exact h p q c hp' hq' hcp hcq

lemma atMostOne_step {s : ServerState} (h : AtMostOne s.rooms) (e : Event)
    (hok : okEvent s e = true) : AtMostOne (step s e).1.rooms := by
  cases e with
  | connect c =>
      by_cases hc : (connLookup s.conns c).isSome <;> simp [step, hc] <;> exact h
  | message c ready raw =>
      cases hc : connLookup s.conns c with
      | none => simpa [step, hc] using h
      | some st =>
          cases raw with
          | malformed => simpa [step, hc, processRaw] using h
          | parsed data =>
              have hrooms :
                  (step s (Event.message c ready (Raw.parsed data))).1.rooms
                    = (handleMessage s.rooms c st ready data).rooms := by
                simp [step, hc, processRaw]
              rw [hrooms]
              by_cases hj : getField data "type" = JSVal.str "join"
              · have hfree : ∀ p ∈ s.rooms, c ∉ p.2 := by
                  simp only [okEvent, hj, if_pos] at hok
                  intro p hp
                  simpa using List.all_eq_true.1 hok p hp
                rw [handleMessage_join s.rooms c st ready data hj]
                exact atMostOne_regSet_setAdd h hfree _
              · rcases handleMessage_rooms_nonjoin s.rooms c st ready data hj
                  with h' | h' <;> rw [h']
                · exact h
                · exact atMostOne_leaveRoom h _ c
  | close c =>
      cases hc : connLookup s.conns c with
      | none => simpa [step, hc] using h
      | some st =>
          have hrooms :
              (step s (Event.close c)).1.rooms = handleCloseConn s.rooms c st := by
            simp [step, hc]
          rw [hrooms]
          unfold handleCloseConn
          split
          · exact atMostOne_leaveRoom h _ c
          · exact h

lemma atMostOne_runFrom (evs : List Event) :
    ∀ s : ServerState, disciplined s evs = true → AtMostOne s.rooms →
      AtMostOne (runFrom s evs).rooms := by
  induction evs with
  | nil => intro s _ h; exact h
  | cons e es ih =>
      intro s hd h
      rw [disciplined, Bool.and_eq_true] at hd
      exact ih _ hd.2 (atMostOne_step h e hd.1)

lemma count_map_mkSend (l : List ConnId) (p : List (String × JSVal))
    (m : ConnId) :
    (l.map (fun c => Send.mk c p)).count (Send.mk m p) = l.count m := by
  induction l with
  | nil => simp
  | cons a rest ih =>
      simp [List.count_cons, ih, Send.mk.injEq]

/-! The claims. -/

/-- Claim C2: at every point between processed operations, a room identifier
is present in the rooms registry if and only if its member set is non-empty —
join creates the entry only when adding a member, and the last member leaving
or disconnecting deletes the entry immediately.  Stated over every state
reachable by a trace of events from server start. -/
theorem claim_C2_registry_iff_nonempty (evs : List Event) (k : JSVal) :
    regHas (run evs).rooms k = true ↔ (regGet (run evs).rooms k).getD [] ≠ [] := by
  have hinv : RoomsNonempty (run evs).rooms :=
    roomsNonempty_runFrom evs initialState (by intro p hp; simp [initialState] at hp)
  constructor
  · intro h
    rcases hget : regGet (run evs).rooms k with _ | ms
    · rw [regHas, hget] at h
      simp at h
    · have := hinv (k, ms) (regGet_mem hget)
      simpa [hget] using this
  · intro h
    rcases hget : regGet (run evs).rooms k with _ | ms
    · rw [hget] at h
      simp at h
    · simp [regHas, hget]

/-- Claim C7: an inbound payload that fails to parse (malformed encoding) is
dropped with no other effect — no sends, the registry unchanged, and every
connection's handler state (`currentRoom`/`clientId`) unchanged, the
connection itself staying live.  (The `console.error` log is a side effect
outside the model.) -/
theorem claim_C7_malformed_no_effect (s : ServerState) (c : ConnId)
    (ready : ConnId → Bool) :
    (step s (Event.message c ready Raw.malformed)).1.rooms = s.rooms
    ∧ (step s (Event.message c ready Raw.malformed)).2 = []
    ∧ ∀ x, connLookup (step s (Event.message c ready Raw.malformed)).1.conns x
        = connLookup s.conns x := by
  cases hc : connLookup s.conns c with
  | none => simp [step, hc]
  | some st =>
      refine ⟨by simp [step, hc, processRaw], by simp [step, hc, processRaw], ?_⟩
      intro x
      simp only [step, hc, processRaw]
      exact connLookup_connUpdate_self hc x

/-- Claim C8: a relay-type message (`draw`, `strokeEnd`, `fill`, `clear`,
`undo`) from a connection whose `currentRoom` is still unset (`null`)
produces zero deliveries, no error, and no change to the registry or the
connection's state. -/
theorem claim_C8_relay_without_room (rooms : Registry) (ws : ConnId)
    (st : ConnState) (ready : ConnId → Bool) (data : JSObj) (ty : String)
    (names : List String) (hty : getField data "type" = JSVal.str ty)
    (htab : (ty, names) ∈ relayTable) (hcr : st.currentRoom = JSVal.jnull) :
    handleMessage rooms ws st ready data = ⟨rooms, st, []⟩ := by
  rw [handleMessage_relay rooms ws st ready data ty names hty htab]
  exact relayCase_inactive _ _ _ _ _ _ _ (Or.inl (by rw [hcr]; rfl))

/-! Concrete fixtures used by witnesses and counterexamples. -/

/-- A readyState predicate with every transport OPEN. -/
def readyAll : ConnId → Bool := fun _ => true

/-- The field list of a `draw` relay. -/
def drawNames : List String :=
  ["x", "y", "prevX", "prevY", "color", "lineWidth", "drawerId"]

/-- A registry with the single room `"R1"` containing connections 0 and 1. -/
def roomsR1 : Registry := [(JSVal.str "R1", [0, 1])]

/-- Handler state of a connection that joined `"R1"` as `"c1"`. -/
def stR1 : ConnState := ⟨JSVal.str "R1", JSVal.str "c1"⟩

/-- A fully-populated `draw` message. -/
def drawFull : JSObj :=
  [("type", JSVal.str "draw"), ("x", JSVal.num 10), ("y", JSVal.num 20),
   ("prevX", JSVal.num 5), ("prevY", JSVal.num 15),
   ("color", JSVal.str "#000000"), ("lineWidth", JSVal.num 2),
   ("drawerId", JSVal.str "c1")]

/-- A `draw` message carrying only a `drawerId`. -/
def drawBare : JSObj := [("type", JSVal.str "draw"), ("drawerId", JSVal.str "c1")]

/-- A `join` message for room `r`. -/
def joinMsg (r : String) : JSObj :=
  [("type", JSVal.str "join"), ("roomId", JSVal.str r), ("clientId", JSVal.str "c")]

/-- A `leave` message. -/
def leaveMsg : JSObj := [("type", JSVal.str "leave")]

theorem claim_C8_relay_without_room_witness :
    (getField drawBare "type" = JSVal.str "draw"
      ∧ ("draw", drawNames) ∈ relayTable
      ∧ (⟨JSVal.jnull, JSVal.jnull⟩ : ConnState).currentRoom = JSVal.jnull)
    ∧ handleMessage roomsR1 0 ⟨JSVal.jnull, JSVal.jnull⟩ readyAll drawBare
        = ⟨roomsR1, ⟨JSVal.jnull, JSVal.jnull⟩, []⟩ :=
  ⟨⟨by decide, by decide, rfl⟩,
   claim_C8_relay_without_room roomsR1 0 ⟨JSVal.jnull, JSVal.jnull⟩ readyAll
     drawBare "draw" drawNames (by decide) (by decide) rfl⟩

/-- Trace reaching a registry state whose room key is the empty string:
both connections join room `""` (a value the relay guard treats as falsy). -/
def traceEmptyRoom : List Event :=
  [Event.connect 0, Event.connect 1,
   Event.message 0 readyAll (Raw.parsed (joinMsg "")),
   Event.message 1 readyAll (Raw.parsed (joinMsg ""))]

/-- Claim C1 counterexample: room `""` is present in the registry, the
sender's `currentRoom` is `""`, member 1 differs from the sender and its
transport is OPEN — yet a `draw` from connection 0 produces no sends,
because `if (currentRoom && ...)` treats the empty string as falsy.  The
claim as stated requires the payload to be sent to member 1. -/
theorem claim_C1_counterexample :
    regGet (run traceEmptyRoom).rooms (JSVal.str "") = some [0, 1]
    ∧ connLookup (run traceEmptyRoom).conns 0
        = some ⟨JSVal.str "", JSVal.str "c"⟩
    ∧ readyAll 1 = true
    ∧ (step (run traceEmptyRoom) (Event.message 0 readyAll (Raw.parsed drawFull))).2
        = [] := by
  decide

/-- Claim C1 (amended): for every relay-type message from a connection whose
`currentRoom` is a truthy identifier `R` present in the registry, the typed
payload is sent to exactly the members of `R` other than the sender whose
transport is OPEN — once per such member and never to the sender.  (For a
falsy `currentRoom` such as `""` the message is dropped even when the room
is registered — see the counterexample.) -/
theorem claim_C1_relay_fanout (rooms : Registry) (ws : ConnId) (st : ConnState)
    (ready : ConnId → Bool) (data : JSObj) (ty : String) (names : List String)
    (ms : List ConnId) (hty : getField data "type" = JSVal.str ty)
    (htab : (ty, names) ∈ relayTable) (htr : st.currentRoom.truthy = true)
    (hms : regGet rooms st.currentRoom = some ms) (hnd : ms.Nodup) :
    (handleMessage rooms ws st ready data).sends
      = (ms.filter (fun c => c ≠ ws && ready c)).map
          (fun c => Send.mk c (relayPayload ty names data))
    ∧ (∀ m ∈ ms, m ≠ ws → ready m = true →
        (handleMessage rooms ws st ready data).sends.count
          (Send.mk m (relayPayload ty names data)) = 1)
    ∧ ∀ sd ∈ (handleMessage rooms ws st ready data).sends, sd.dest ≠ ws := by
  rw [handleMessage_relay rooms ws st ready data ty names hty htab,
    relayCase_active rooms ws st ready data ty names ms htr hms]
  refine ⟨rfl, ?_, ?_⟩
  · intro m hm hmw hr
    rw [count_map_mkSend]
    have hmf : m ∈ ms.filter (fun c => c ≠ ws && ready c) :=
      List.mem_filter.2 ⟨hm, by simp [hmw, hr]⟩
    exact List.count_eq_one_of_mem (hnd.filter _) hmf
  · intro sd hsd
    rcases List.mem_map.1 hsd with ⟨c, hc, hceq⟩
    have hflt := (List.mem_filter.1 hc).2
    simp only [Bool.and_eq_true, decide_eq_true_eq] at hflt
    rw [← hceq]
    exact hflt.1

theorem claim_C1_relay_fanout_witness :
    (getField drawFull "type" = JSVal.str "draw"
      ∧ ("draw", drawNames) ∈ relayTable
      ∧ stR1.currentRoom.truthy = true
      ∧ regGet roomsR1 stR1.currentRoom = some [0, 1]
      ∧ ([0, 1] : List ConnId).Nodup)
    ∧ ((handleMessage roomsR1 0 stR1 readyAll drawFull).sends
        = (([0, 1] : List ConnId).filter (fun c => c ≠ 0 && readyAll c)).map
            (fun c => Send.mk c (relayPayload "draw" drawNames drawFull))
      ∧ (∀ m ∈ ([0, 1] : List ConnId), m ≠ 0 → readyAll m = true →
          (handleMessage roomsR1 0 stR1 readyAll drawFull).sends.count
            (Send.mk m (relayPayload "draw" drawNames drawFull)) = 1)
      ∧ ∀ sd ∈ (handleMessage roomsR1 0 stR1 readyAll drawFull).sends,
          sd.dest ≠ 0) :=
  ⟨⟨by decide, by decide, by decide, by decide, by decide⟩,
   claim_C1_relay_fanout roomsR1 0 stR1 readyAll drawFull "draw" drawNames
     [0, 1] (by decide) (by decide) (by decide) (by decide) (by decide)⟩

/-- Claim C5: every recipient of a relay fan-out is a member of the sender's
current room — a message relayed in one room is never delivered to a
connection that is not in that room's member set. -/
theorem claim_C5_no_cross_room_delivery (rooms : Registry) (ws : ConnId)
    (st : ConnState) (ready : ConnId → Bool) (data : JSObj) (ty : String)
    (names : List String) (hty : getField data "type" = JSVal.str ty)
    (htab : (ty, names) ∈ relayTable) :
    ∀ sd ∈ (handleMessage rooms ws st ready data).sends,
      sd.dest ∈ (regGet rooms st.currentRoom).getD [] := by
  rw [handleMessage_relay rooms ws st ready data ty names hty htab]
  unfold relayCase
  split
  · intro sd hsd
    rcases List.mem_map.1 hsd with ⟨c, hc, hceq⟩
    rw [← hceq]
    exact (List.mem_filter.1 hc).1
  · intro sd hsd
    simp at hsd

theorem claim_C5_no_cross_room_delivery_witness :
    (getField drawFull "type" = JSVal.str "draw"
      ∧ ("draw", drawNames) ∈ relayTable)
    ∧ ∀ sd ∈ (handleMessage roomsR1 0 stR1 readyAll drawFull).sends,
        sd.dest ∈ (regGet roomsR1 stR1.currentRoom).getD [] :=
  ⟨⟨by decide, by decide⟩,
   claim_C5_no_cross_room_delivery roomsR1 0 stR1 readyAll drawFull "draw"
     drawNames (by decide) (by decide)⟩

/-- Claim C6: broadcast is best-effort.  A wire failure towards one
recipient (`ok m1 = false`) affects neither the delivery to any other open
recipient of the same invocation nor the sender, who is sent nothing at all
(in the code, a transport error surfaces only on the failing recipient's own
socket and the router's `catch` merely logs). -/
theorem claim_C6_best_effort (rooms : Registry) (ws : ConnId) (st : ConnState)
    (ready : ConnId → Bool) (data : JSObj) (ty : String) (names : List String)
    (ms : List ConnId) (ok : ConnId → Bool) (m1 m2 : ConnId)
    (hty : getField data "type" = JSVal.str ty)
    (htab : (ty, names) ∈ relayTable) (htr : st.currentRoom.truthy = true)
    (hms : regGet rooms st.currentRoom = some ms)
    (hm1 : m1 ∈ ms) (hm1w : m1 ≠ ws) (hm1r : ready m1 = true)
    (hm1f : ok m1 = false)
    (hm2 : m2 ∈ ms) (hm2w : m2 ≠ ws) (hm2r : ready m2 = true)
    (hm2o : ok m2 = true) :
    Send.mk m2 (relayPayload ty names data)
      ∈ deliveredSends (handleMessage rooms ws st ready data).sends ok
    ∧ ∀ q, Send.mk ws q ∉ (handleMessage rooms ws st ready data).sends := by
  rw [handleMessage_relay rooms ws st ready data ty names hty htab,
    relayCase_active rooms ws st ready data ty names ms htr hms]
  constructor
  · have hmem : Send.mk m2 (relayPayload ty names data)
        ∈ (ms.filter (fun c => c ≠ ws && ready c)).map
            (fun c => Send.mk c (relayPayload ty names data)) :=
      List.mem_map.2 ⟨m2, List.mem_filter.2 ⟨hm2, by simp [hm2w, hm2r]⟩, rfl⟩
    exact List.mem_filter.2 ⟨hmem, by simpa using hm2o⟩
  · intro q hq
    rcases List.mem_map.1 hq with ⟨c, hc, hceq⟩
    have hflt := (List.mem_filter.1 hc).2
    simp only [Bool.and_eq_true, decide_eq_true_eq] at hflt
    exact hflt.1 (congrArg Send.dest hceq)

/-- A wire-outcome fixture for the C6 witness: delivery to connection 1
fails, all else succeeds. -/
def okNot1 : ConnId → Bool := fun c => decide (c ≠ 1)

/-- A registry with room `"R1"` containing connections 0, 1 and 2. -/
def roomsR1three : Registry := [(JSVal.str "R1", [0, 1, 2])]

theorem claim_C6_best_effort_witness :
    (getField drawFull "type" = JSVal.str "draw"
      ∧ ("draw", drawNames) ∈ relayTable
      ∧ stR1.currentRoom.truthy = true
      ∧ regGet roomsR1three stR1.currentRoom = some [0, 1, 2]
      ∧ (1 : ConnId) ∈ ([0, 1, 2] : List ConnId) ∧ (1 : ConnId) ≠ 0
      ∧ readyAll 1 = true ∧ okNot1 1 = false
      ∧ (2 : ConnId) ∈ ([0, 1, 2] : List ConnId) ∧ (2 : ConnId) ≠ 0
      ∧ readyAll 2 = true ∧ okNot1 2 = true)
    ∧ (Send.mk 2 (relayPayload "draw" drawNames drawFull)
        ∈ deliveredSends (handleMessage roomsR1three 0 stR1 readyAll drawFull).sends okNot1
      ∧ ∀ q, Send.mk 0 q ∉ (handleMessage roomsR1three 0 stR1 readyAll drawFull).sends) :=
  ⟨⟨by decide, by decide, by decide, by decide, by decide, by decide, by decide,
    by decide, by decide, by decide, by decide, by decide⟩,
   claim_C6_best_effort roomsR1three 0 stR1 readyAll drawFull "draw" drawNames
     [0, 1, 2] okNot1 1 2 (by decide) (by decide) (by decide) (by decide)
     (by decide) (by decide) (by decide) (by decide) (by decide) (by decide)
     (by decide) (by decide)⟩

/-- A `draw` message carrying an extra field `foo` not enumerated for the
`draw` type, and missing most enumerated fields. -/
def drawExtraField : JSObj :=
  [("type", JSVal.str "draw"), ("x", JSVal.num 1), ("foo", JSVal.str "bar")]

/-- Claim C9 counterexample: the router rebuilds the relay payload from the
enumerated fields only, so the inbound extra field `foo` is NOT passed
through to the recipient — the delivered payload is exactly
`{type:"draw", x:1}`.  The claim as stated requires `foo` to be relayed. -/
theorem claim_C9_counterexample :
    (handleMessage roomsR1 0 stR1 readyAll drawExtraField).sends
      = [Send.mk 1 [("type", JSVal.str "draw"), ("x", JSVal.num 1)]]
    ∧ ("foo", JSVal.str "bar")
        ∉ [("type", JSVal.str "draw"), ("x", JSVal.num 1)] := by
  decide

/-- Claim C9 (amended): a relay message is re-serialized with exactly the
fields enumerated for its type — inbound fields outside that list are
dropped rather than passed through, while a relay message missing an
enumerated field is still relayed, with that field absent from the payload
rather than the message being rejected. -/
theorem claim_C9_field_projection (rooms : Registry) (ws : ConnId)
    (st : ConnState) (ready : ConnId → Bool) (data : JSObj) (ty : String)
    (names : List String) (ms : List ConnId)
    (hty : getField data "type" = JSVal.str ty)
    (htab : (ty, names) ∈ relayTable) (htr : st.currentRoom.truthy = true)
    (hms : regGet rooms st.currentRoom = some ms) :
    (handleMessage rooms ws st ready data).sends
      = (ms.filter (fun c => c ≠ ws && ready c)).map
          (fun c => Send.mk c (relayPayload ty names data))
    ∧ (∀ f v, (f, v) ∈ relayPayload ty names data → f = "type" ∨ f ∈ names)
    ∧ ∀ f ∈ names, getField data f = JSVal.undef →
        ∀ v, (f, v) ∉ relayPayload ty names data := by
  refine ⟨?_, ?_, ?_⟩
  · rw [handleMessage_relay rooms ws st ready data ty names hty htab,
      relayCase_active rooms ws st ready data ty names ms htr hms]
  · intro f v hfv
    have hmem := (List.mem_filter.1 hfv).1
    rcases List.mem_cons.1 hmem with h | h
    · exact Or.inl (congrArg Prod.fst h)
    · rcases List.mem_map.1 h with ⟨g, hg, hgeq⟩
      have hfg : g = f := congrArg Prod.fst hgeq
      exact Or.inr (hfg ▸ hg)
  · intro f hf hundef v hfv
    have hmem := List.mem_filter.1 hfv
    have hval := hmem.2
    rcases List.mem_cons.1 hmem.1 with h | h
    · have hft : f = "type" := congrArg Prod.fst h
      have htn : "type" ∉ names := by
        simp only [relayTable, List.mem_cons, List.not_mem_nil, or_false,
          Prod.mk.injEq] at htab
        rcases htab with ⟨h1, h2⟩ | ⟨h1, h2⟩ | ⟨h1, h2⟩ | ⟨h1, h2⟩ | ⟨h1, h2⟩ <;>
          (subst h2; decide)
      exact htn (hft ▸ hf)
    · rcases List.mem_map.1 h with ⟨g, hg, hgeq⟩
      have hfg : g = f := congrArg Prod.fst hgeq
      have hv : v = getField data g := (congrArg Prod.snd hgeq).symm
      rw [hfg, hundef] at hv
      simp [hv] at hval

theorem claim_C9_field_projection_witness :
    (getField drawExtraField "type" = JSVal.str "draw"
      ∧ ("draw", drawNames) ∈ relayTable
      ∧ stR1.currentRoom.truthy = true
      ∧ regGet roomsR1 stR1.currentRoom = some [0, 1])
    ∧ ((handleMessage roomsR1 0 stR1 readyAll drawExtraField).sends
        = (([0, 1] : List ConnId).filter (fun c => c ≠ 0 && readyAll c)).map
            (fun c => Send.mk c (relayPayload "draw" drawNames drawExtraField))
      ∧ (∀ f v, (f, v) ∈ relayPayload "draw" drawNames drawExtraField →
          f = "type" ∨ f ∈ drawNames)
      ∧ ∀ f ∈ drawNames, getField drawExtraField f = JSVal.undef →
          ∀ v, (f, v) ∉ relayPayload "draw" drawNames drawExtraField) :=
  ⟨⟨by decide, by decide, by decide, by decide⟩,
   claim_C9_field_projection roomsR1 0 stR1 readyAll drawExtraField "draw"
     drawNames [0, 1] (by decide) (by decide) (by decide) (by decide)⟩

/-- Claim C10: a `join` whose `roomId` field is absent still succeeds — the
connection's `currentRoom` becomes the `undefined` value, a registry entry
keyed by `undefined` is created with the connection as sole member (when no
such entry existed), and exactly one `joined` confirmation goes back to the
sender (its `roomId: undefined` property dropped by serialization).  No
validation occurs and no error is raised. -/
theorem claim_C10_join_undefined_room (rooms : Registry) (ws : ConnId)
    (st : ConnState) (ready : ConnId → Bool) (data : JSObj)
    (hty : getField data "type" = JSVal.str "join")
    (hroom : getField data "roomId" = JSVal.undef)
    (hfresh : regHas rooms JSVal.undef = false) :
    (handleMessage rooms ws st ready data).conn.currentRoom = JSVal.undef
    ∧ (handleMessage rooms ws st ready data).conn.clientId
        = getField data "clientId"
    ∧ regGet (handleMessage rooms ws st ready data).rooms JSVal.undef
        = some [ws]
    ∧ (handleMessage rooms ws st ready data).sends
        = [Send.mk ws [("type", JSVal.str "joined")]] := by
  rw [handleMessage_join rooms ws st ready data hty, hroom]
  have hn : regGet rooms JSVal.undef = none := regHas_false_iff.1 hfresh
  refine ⟨rfl, rfl, ?_, ?_⟩
  · rw [hn]
    simpa [setAdd] using regGet_regSet_self rooms JSVal.undef [ws]
  · simp [stringifyFields]

/-- A `join` message with no `roomId` property at all. -/
def joinNoRoomMsg : JSObj :=
  [("type", JSVal.str "join"), ("clientId", JSVal.str "c9")]

theorem claim_C10_join_undefined_room_witness :
    (getField joinNoRoomMsg "type" = JSVal.str "join"
      ∧ getField joinNoRoomMsg "roomId" = JSVal.undef
      ∧ regHas ([] : Registry) JSVal.undef = false)
    ∧ ((handleMessage [] 5 ⟨JSVal.jnull, JSVal.jnull⟩ readyAll joinNoRoomMsg).conn.currentRoom
          = JSVal.undef
      ∧ (handleMessage [] 5 ⟨JSVal.jnull, JSVal.jnull⟩ readyAll joinNoRoomMsg).conn.clientId
          = getField joinNoRoomMsg "clientId"
      ∧ regGet (handleMessage [] 5 ⟨JSVal.jnull, JSVal.jnull⟩ readyAll joinNoRoomMsg).rooms
          JSVal.undef = some [5]
      ∧ (handleMessage [] 5 ⟨JSVal.jnull, JSVal.jnull⟩ readyAll joinNoRoomMsg).sends
          = [Send.mk 5 [("type", JSVal.str "joined")]]) :=
  ⟨⟨by decide, by decide, by decide⟩,
   claim_C10_join_undefined_room [] 5 ⟨JSVal.jnull, JSVal.jnull⟩ readyAll
     joinNoRoomMsg (by decide) (by decide) (by decide)⟩

/-- Trace in which connections 0 and 1 join room `"R1"` and connection 0
then leaves; no `join` from 0 follows. -/
def traceLeaveStale : List Event :=
  [Event.connect 0, Event.connect 1,
   Event.message 0 readyAll (Raw.parsed (joinMsg "R1")),
   Event.message 1 readyAll (Raw.parsed (joinMsg "R1")),
   Event.message 0 readyAll (Raw.parsed leaveMsg)]

/-- Claim C3 counterexample: after its `leave` is processed, connection 0's
`currentRoom` is still `"R1"` (the leave case never clears it), so a
subsequent `draw` from 0 — with no intervening `join` — is still delivered
to the remaining member 1.  The claim as stated requires zero deliveries. -/
theorem claim_C3_counterexample :
    connLookup (run traceLeaveStale).conns 0
      = some ⟨JSVal.str "R1", JSVal.str "c"⟩
    ∧ regGet (run traceLeaveStale).rooms (JSVal.str "R1") = some [1]
    ∧ (step (run traceLeaveStale) (Event.message 0 readyAll (Raw.parsed drawBare))).2
        = [Send.mk 1 [("type", JSVal.str "draw"), ("drawerId", JSVal.str "c1")]] := by
  decide

lemma leaveRoom_eq (rooms : Registry) (k : JSVal) (ws : ConnId)
    (ms : List ConnId) (hms : regGet rooms k = some ms) :
    leaveRoom rooms k ws =
      if setDelete ms ws = [] then regDelete (regSet rooms k (setDelete ms ws)) k
      else regSet rooms k (setDelete ms ws) := by
  unfold leaveRoom
  rw [hms]
  rfl

/-- Claim C3 (amended): processing a `leave` removes the connection from its
room's member set but does not clear its `currentRoom`, so the connection is
not returned to the Unjoined state.  If it was the sole member the room is
deleted and relay-type messages it sends in the resulting state produce zero
deliveries; but whenever other members remain, its subsequent relay messages
are still delivered to them even without a new `join`.  After transport
close, messages from the connection are no longer processed at all. -/
theorem claim_C3_leave_not_unjoined (rooms : Registry) (ws : ConnId)
    (st : ConnState) (ready ready' : ConnId → Bool) (data : JSObj)
    (ms : List ConnId) (hty : getField data "type" = JSVal.str "leave")
    (htr : st.currentRoom.truthy = true)
    (hms : regGet rooms st.currentRoom = some ms) :
    (handleMessage rooms ws st ready data).conn = st
    ∧ ws ∉ (regGet (handleMessage rooms ws st ready data).rooms
        st.currentRoom).getD []
    ∧ (setDelete ms ws = [] →
        regHas (handleMessage rooms ws st ready data).rooms st.currentRoom = false
        ∧ ∀ (dataB : JSObj) (ty : String) (names : List String),
            getField dataB "type" = JSVal.str ty → (ty, names) ∈ relayTable →
            (handleMessage (handleMessage rooms ws st ready data).rooms ws st
              ready' dataB).sends = [])
    ∧ (∀ m ∈ ms, m ≠ ws → ready' m = true →
        ∀ (dataB : JSObj) (ty : String) (names : List String),
          getField dataB "type" = JSVal.str ty → (ty, names) ∈ relayTable →
          Send.mk m (relayPayload ty names dataB)
            ∈ (handleMessage (handleMessage rooms ws st ready data).rooms ws st
                ready' dataB).sends)
    ∧ ∀ (s : ServerState) (c : ConnId) (rd : ConnId → Bool) (raw : Raw),
        connLookup s.conns c = none →
        step s (Event.message c rd raw) = (s, []) := by
  have hhas : regHas rooms st.currentRoom = true := by simp [regHas, hms]
  rw [handleMessage_leave_active rooms ws st ready data hty htr hhas]
  rw [show (StepResult.mk (leaveRoom rooms st.currentRoom ws) st []).rooms
      = leaveRoom rooms st.currentRoom ws from rfl]
  rw [leaveRoom_eq rooms st.currentRoom ws ms hms]
  refine ⟨rfl, ?_, ?_, ?_, ?_⟩
  · by_cases hdel : setDelete ms ws = []
    · rw [if_pos hdel, regGet_regDelete_self]
      simp
    · rw [if_neg hdel, regGet_regSet_self]
      exact self_not_mem_setDelete ms ws
  · intro hdel
    rw [if_pos hdel]
    have hnone : regHas (regDelete (regSet rooms st.currentRoom (setDelete ms ws))
        st.currentRoom) st.currentRoom = false := by
      simp [regHas, regGet_regDelete_self]
    refine ⟨hnone, ?_⟩
    intro dataB ty names htyB htabB
    rw [handleMessage_relay _ ws st ready' dataB ty names htyB htabB,
      relayCase_inactive _ _ _ _ _ _ _ (Or.inr hnone)]
  · intro m hm hmw hr dataB ty names htyB htabB
    have hmem : m ∈ setDelete ms ws := mem_setDelete.2 ⟨hm, hmw⟩
    have hdel : setDelete ms ws ≠ [] := List.ne_nil_of_mem hmem
    rw [if_neg hdel]
    rw [handleMessage_relay _ ws st ready' dataB ty names htyB htabB,
      relayCase_active _ ws st ready' dataB ty names (setDelete ms ws) htr
        (regGet_regSet_self ..)]
    exact List.mem_map.2 ⟨m, List.mem_filter.2 ⟨hmem, by simp [hmw, hr]⟩, rfl⟩
  · intro s c rd raw hnone
    simp [step, hnone]

theorem claim_C3_leave_not_unjoined_witness :
    (getField leaveMsg "type" = JSVal.str "leave"
      ∧ stR1.currentRoom.truthy = true
      ∧ regGet roomsR1 stR1.currentRoom = some [0, 1])
    ∧ ((handleMessage roomsR1 0 stR1 readyAll leaveMsg).conn = stR1
      ∧ 0 ∉ (regGet (handleMessage roomsR1 0 stR1 readyAll leaveMsg).rooms
          stR1.currentRoom).getD []
      ∧ (setDelete [0, 1] 0 = [] →
          regHas (handleMessage roomsR1 0 stR1 readyAll leaveMsg).rooms
            stR1.currentRoom = false
          ∧ ∀ (dataB : JSObj) (ty : String) (names : List String),
              getField dataB "type" = JSVal.str ty → (ty, names) ∈ relayTable →
              (handleMessage (handleMessage roomsR1 0 stR1 readyAll leaveMsg).rooms
                0 stR1 readyAll dataB).sends = [])
      ∧ (∀ m ∈ ([0, 1] : List ConnId), m ≠ 0 → readyAll m = true →
          ∀ (dataB : JSObj) (ty : String) (names : List String),
            getField dataB "type" = JSVal.str ty → (ty, names) ∈ relayTable →
            Send.mk m (relayPayload ty names dataB)
              ∈ (handleMessage (handleMessage roomsR1 0 stR1 readyAll leaveMsg).rooms
                  0 stR1 readyAll dataB).sends)
      ∧ ∀ (s : ServerState) (c : ConnId) (rd : ConnId → Bool) (raw : Raw),
          connLookup s.conns c = none →
          step s (Event.message c rd raw) = (s, [])) :=
  ⟨⟨by decide, by decide, by decide⟩,
   claim_C3_leave_not_unjoined roomsR1 0 stR1 readyAll readyAll leaveMsg [0, 1]
     (by decide) (by decide) (by decide)⟩

/-- Trace in which connection 0 joins `"R1"` and then joins `"R2"` without
leaving. -/
def traceDoubleJoin : List Event :=
  [Event.connect 0,
   Event.message 0 readyAll (Raw.parsed (joinMsg "R1")),
   Event.message 0 readyAll (Raw.parsed (joinMsg "R2"))]

/-- Claim C4 counterexample: a second `join` re-targets `currentRoom` but
never removes the old membership, so after joining `"R1"` then `"R2"`
connection 0 sits in the member sets of two different rooms at once. -/
theorem claim_C4_counterexample :
    (JSVal.str "R1", [0]) ∈ (run traceDoubleJoin).rooms
    ∧ (JSVal.str "R2", [0]) ∈ (run traceDoubleJoin).rooms
    ∧ JSVal.str "R1" ≠ JSVal.str "R2" := by
  decide

/-- Claim C4 (amended): a connection belongs to at most one room at any
instant provided no connection ever sends `join` while it is still a member
of some room (the `disciplined` predicate); without that discipline a second
`join` leaves the old membership in place and the connection can be in two
rooms at once, as the counterexample shows. -/
theorem claim_C4_at_most_one_room (evs : List Event)
    (hd : disciplined initialState evs = true) :
    ∀ p q : JSVal × List ConnId, ∀ c : ConnId,
      p ∈ (run evs).rooms → q ∈ (run evs).rooms →
      c ∈ p.2 → c ∈ q.2 → p.1 = q.1 := by
  exact atMostOne_runFrom evs initialState hd
    (by intro p q c hp; simp [initialState] at hp)

/-- Trace in which two distinct connections join two distinct rooms, each
`join` arriving while its sender is in no member set. -/
def traceTwoRooms : List Event :=
  [Event.connect 0,
   Event.message 0 readyAll (Raw.parsed (joinMsg "R1")),
   Event.connect 1,
   Event.message 1 readyAll (Raw.parsed (joinMsg "R2"))]

theorem claim_C4_at_most_one_room_witness :
    disciplined initialState traceTwoRooms = true
    ∧ ∀ p q : JSVal × List ConnId, ∀ c : ConnId,
        p ∈ (run traceTwoRooms).rooms → q ∈ (run traceTwoRooms).rooms →
        c ∈ p.2 → c ∈ q.2 → p.1 = q.1 :=
  ⟨by decide, claim_C4_at_most_one_room traceTwoRooms (by decide)⟩
